import Mathlib

/-!
Verification development for the confluence-scraper repository.

The two core components are embedded shallowly:
* the structural parser (advanced-confluence-parser.js, exported class
  ConfluenceParser) — markup tree → ParsedDocument;
* the chunker (src/index.ts, extractVectorContent / processTable) —
  markup tree → list of VectorizedContent chunks.

Modelling conventions:
* The spec treats the markup-tree access layer (node-html-parser) as an
  external primitive, so both components are embedded as functions over an
  explicit tree type Node.  Tag names are stored lowercase (the library
  normalises case in selectors; source code compares tagName uppercase —
  the two views are identified here).  The document root is an element
  with empty tag whose children are the top-level parsed nodes, matching
  the library's container root.
* All JavaScript string operations used by the source (trim, split,
  includes, startsWith, parseInt, number→string templates, JSON.stringify)
  are embedded as executable Lean functions with JS semantics.
* JavaScript truthiness on strings (""/undefined falsy) is modelled
  explicitly at each use site.
* All embedded operations are total, so the top-level try/catch branches
  of the source cannot fire inside the embedding; the catch results are
  still represented in the result types where the source has them.
-/

set_option maxRecDepth 400000

/-! ## JavaScript string primitives -/

/-- JS `String.prototype.trim` (ASCII whitespace suffices for the model). -/
def jsTrim (s : String) : String :=
  ⟨((s.data.dropWhile Char.isWhitespace).reverse.dropWhile Char.isWhitespace).reverse⟩

/-- Auxiliary scanner for splitting on the two-character separator "\n\n". -/
def splitBlankAux : List Char → List Char → List (List Char)
  | [], acc => [acc.reverse]
  | '\n' :: '\n' :: rest, acc => acc.reverse :: splitBlankAux rest []
  | c :: rest, acc => splitBlankAux rest (c :: acc)

/-- JS `s.split('\n\n')`: blank-line-delimited paragraphs. -/
def jsSplitBlank (s : String) : List String :=
  (splitBlankAux s.data []).map (fun l => ⟨l⟩)

/-- Concatenation of a list of strings. -/
def strJoin : List String → String
  | [] => ""
  | s :: rest => s ++ strJoin rest

/-- JS `Array.prototype.join(sep)`. -/
def strIntercalate (sep : String) : List String → String
  | [] => ""
  | [s] => s
  | s :: rest => s ++ sep ++ strIntercalate sep rest

/-- Substring occurrence on character lists. -/
def subOccurs (pat : List Char) : List Char → Bool
  | [] => pat.isEmpty
  | c :: rest => pat.isPrefixOf (c :: rest) || subOccurs pat rest

/-- JS `String.prototype.includes`. -/
def jsIncludes (s pat : String) : Bool :=
  subOccurs pat.data s.data

/-- JS `String.prototype.startsWith`. -/
def jsStartsWith (s pat : String) : Bool :=
  pat.data.isPrefixOf s.data

/-- Decimal digit character for a value below ten. -/
def digitChar : Nat → Char
  | 0 => '0' | 1 => '1' | 2 => '2' | 3 => '3' | 4 => '4'
  | 5 => '5' | 6 => '6' | 7 => '7' | 8 => '8' | 9 => '9'
  | _ => '0'

/-- Numeric value of a decimal digit character. -/
def digitVal : Char → Nat
  | '0' => 0 | '1' => 1 | '2' => 2 | '3' => 3 | '4' => 4
  | '5' => 5 | '6' => 6 | '7' => 7 | '8' => 8 | '9' => 9
  | _ => 0

/-- Fuelled decimal rendering (fuel bounds the digit count; fuel = n + 1
is always sufficient since n / 10 decreases strictly). -/
def toDecimalAux : Nat → Nat → List Char
  | 0, _ => []
  | fuel + 1, n => if n < 10 then [digitChar n] else toDecimalAux fuel (n / 10) ++ [digitChar (n % 10)]

/-- JS number→string conversion for the natural numbers used in template
literals by the source. -/
def natToString (n : Nat) : String :=
  ⟨toDecimalAux (n + 1) n⟩

/-- Value of a digit string, most significant digit first. -/
def ofDigits (l : List Char) : Nat :=
  l.foldl (fun a c => a * 10 + digitVal c) 0

theorem digitVal_digitChar {d : Nat} (h : d < 10) : digitVal (digitChar d) = d := by
  interval_cases d <;> rfl

theorem ofDigits_append (l : List Char) (c : Char) :
    ofDigits (l ++ [c]) = ofDigits l * 10 + digitVal c := by
  simp [ofDigits, List.foldl_append]

theorem ofDigits_toDecimalAux : ∀ fuel n, n < fuel → ofDigits (toDecimalAux fuel n) = n := by
  intro fuel
  induction fuel with
  | zero => intro n h; omega
  | succ f ih =>
    intro n h
    by_cases h10 : n < 10
    · simp [toDecimalAux, h10, ofDigits, digitVal_digitChar h10]
    · have hdiv : n / 10 < f := by omega
      simp only [toDecimalAux, if_neg h10]
      rw [ofDigits_append, ih _ hdiv, digitVal_digitChar (Nat.mod_lt _ (by omega))]
      omega

theorem natToString_inj {a b : Nat} (h : natToString a = natToString b) : a = b := by
  have hdata : toDecimalAux (a + 1) a = toDecimalAux (b + 1) b := congrArg String.data h
  have := ofDigits_toDecimalAux (a + 1) a (Nat.lt_succ_self a)
  have hb := ofDigits_toDecimalAux (b + 1) b (Nat.lt_succ_self b)
  rw [← this, ← hb, hdata]

/-- JS `parseInt` (no explicit radix): skip leading whitespace, optional
sign, then decimal digits (hex with 0x prefix); `none` models NaN. -/
def parseIntDigits : List Char → Nat → Option Nat
  | [], acc => some acc
  | c :: rest, acc =>
    if '0' ≤ c ∧ c ≤ '9' then parseIntDigits rest (acc * 10 + digitVal c)
    else some acc

def parseIntHexVal (c : Char) : Option Nat :=
  if '0' ≤ c ∧ c ≤ '9' then some (digitVal c)
  else if 'a' ≤ c ∧ c ≤ 'f' then some (c.toNat - 'a'.toNat + 10)
  else if 'A' ≤ c ∧ c ≤ 'F' then some (c.toNat - 'A'.toNat + 10)
  else none

def parseIntHexDigits : List Char → Nat → Nat
  | [], acc => acc
  | c :: rest, acc =>
    match parseIntHexVal c with
    | some v => parseIntHexDigits rest (acc * 16 + v)
    | none => acc

/-- Digit run after sign handling; `none` when no digit is found (NaN). -/
def parseIntBody : List Char → Option Nat
  | [] => none
  | '0' :: 'x' :: c :: rest =>
    match parseIntHexVal c with
    | some v => some (parseIntHexDigits rest v)
    | none => some 0
  | '0' :: 'X' :: c :: rest =>
    match parseIntHexVal c with
    | some v => some (parseIntHexDigits rest v)
    | none => some 0
  | c :: rest =>
    if '0' ≤ c ∧ c ≤ '9' then parseIntDigits rest (digitVal c)
    else none

def jsParseInt (s : String) : Option Int :=
  match s.data.dropWhile Char.isWhitespace with
  | '-' :: rest => (parseIntBody rest).map (fun n => -(n : Int))
  | '+' :: rest => (parseIntBody rest).map (fun n => (n : Int))
  | rest => (parseIntBody rest).map (fun n => (n : Int))

/-- First value that is JS-truthy (non-empty string), else the default:
models chained `a || b`. -/
def jsOrStr (o : Option String) (d : String) : String :=
  match o with
  | some s => if s = "" then d else s
  | none => d

/-- Chained `a || b` where both sides are attribute lookups. -/
def jsOrOpt (a b : Option String) : Option String :=
  match a with
  | some s => if s = "" then b else some s
  | none => b

/-! ## The markup tree (node-html-parser abstraction) -/

inductive Node where
  | text (s : String)
  | element (tag : String) (attrs : List (String × String)) (children : List Node)
deriving Repr

def Node.isElement : Node → Bool
  | .element _ _ _ => true
  | .text _ => false

def Node.tag : Node → String
  | .element t _ _ => t
  | .text _ => ""

def Node.children : Node → List Node
  | .element _ _ ch => ch
  | .text _ => []

/-- Embeds `getAttribute`: `none` models the undefined result for a missing
attribute. -/
def Node.getAttr : Node → String → Option String
  | .element _ attrs _, key => (attrs.find? (fun kv => kv.1 = key)).map (fun kv => kv.2)
  | .text _, _ => none

def Node.hasAttr (n : Node) (key : String) : Bool :=
  (n.getAttr key).isSome

mutual
/-- Embeds `textContent`: concatenated text of all descendants. -/
def textContent : Node → String
  | .text s => s
  | .element _ _ ch => textContentList ch

def textContentList : List Node → String
  | [] => ""
  | c :: cs => textContent c ++ textContentList cs
end

mutual
/-- Serialization used for `outerHTML`. -/
def outerHTML : Node → String
  | .text s => s
  | .element t attrs ch =>
    "<" ++ t ++ strJoin (attrs.map (fun kv => " " ++ kv.1 ++ "=\"" ++ kv.2 ++ "\"")) ++ ">"
      ++ outerHTMLList ch ++ "</" ++ t ++ ">"

def outerHTMLList : List Node → String
  | [] => ""
  | c :: cs => outerHTML c ++ outerHTMLList cs
end

/-- Embeds `innerHTML`. -/
def innerHTML (n : Node) : String :=
  outerHTMLList n.children

mutual
/-- Descendants (excluding the node itself) satisfying a predicate, in
document (preorder) order: the semantics of `querySelectorAll`. -/
def collect (p : Node → Bool) : Node → List Node
  | .text _ => []
  | .element _ _ ch => collectList p ch

def collectList (p : Node → Bool) : List Node → List Node
  | [] => []
  | c :: cs => (if p c then [c] else []) ++ collect p c ++ collectList p cs
end

/-- Tag-membership predicate of a comma-list selector. -/
def tagIn (tags : List String) (n : Node) : Bool :=
  n.isElement && tags.contains n.tag

/-- Embeds `querySelectorAll` with a comma-list of tag selectors. -/
def queryAll (tags : List String) (root : Node) : List Node :=
  collect (tagIn tags) root

/-- Embeds `querySelector`: first match in document order, or null. -/
def queryFirst (tags : List String) (root : Node) : Option Node :=
  (queryAll tags root).head?

mutual
theorem sizeOf_lt_of_mem_collect {p : Node → Bool} :
    ∀ {n m : Node}, m ∈ collect p n → sizeOf m < sizeOf n
  | .text s, m, h => by simp [collect] at h
  | .element t attrs ch, m, h => by
    rw [collect] at h
    have := sizeOf_lt_of_mem_collectList (p := p) h
    simp only [Node.element.sizeOf_spec]
    omega

theorem sizeOf_lt_of_mem_collectList {p : Node → Bool} :
    ∀ {l : List Node} {m : Node}, m ∈ collectList p l → sizeOf m < sizeOf l
  | [], m, h => by simp [collectList] at h
  | c :: cs, m, h => by
    rw [collectList] at h
    simp only [List.mem_append] at h
    rcases h with (h | h) | h
    · have hc : m = c := by
        by_cases hp : p c <;> simp [hp] at h
        exact h
      subst hc
      simp only [List.cons.sizeOf_spec]
      omega
    · have := sizeOf_lt_of_mem_collect (p := p) h
      simp only [List.cons.sizeOf_spec]
      omega
    · have := sizeOf_lt_of_mem_collectList (p := p) h
      simp only [List.cons.sizeOf_spec]
      omega
end

/-! ## Structural parser (ConfluenceParser, advanced-confluence-parser.js)

Embedded from the source function by function.  `parse(html)` of the
library is the external tree-building primitive; the embedding works
directly on its result (a root element).  Where the source re-parses a
serialized fragment (`parse(html).textContent`), the round-trip is
modelled as the identity on the tree: the re-parsed fragment has the same
text content as the node it was serialized from. -/

/-- JS-object insertion `obj[k] = v`: replaces the value in place when the
key exists, appends otherwise. -/
def upsert : List (String × String) → String → String → List (String × String)
  | [], k, v => [(k, v)]
  | (k', v') :: rest, k, v =>
    if k' = k then (k', v) :: rest else (k', v') :: upsert rest k v

/-- Lookup in the association-list view of a JS object. -/
def assocLookup : List (String × String) → String → Option String
  | [], _ => none
  | (k, v) :: rest, q => if k = q then some v else assocLookup rest q

/-- One `meta` tag of `extractMetadata`'s forEach body: the guard
`if (name && content)` requires both attributes present and non-empty. -/
def metaStep (md : List (String × String)) (meta : Node) : List (String × String) :=
  match meta.getAttr "name", meta.getAttr "content" with
  | some n, some c => if n ≠ "" ∧ c ≠ "" then upsert md n c else md
  | _, _ => md

/-- Embeds `ConfluenceParser.extractMetadata`. -/
def extractMetadata (root : Node) : List (String × String) :=
  (queryAll ["meta"] root).foldl metaStep []

/-- Embeds `ConfluenceParser.extractTitle`. -/
def extractTitle (root : Node) : String :=
  match queryFirst ["title"] root with
  | some t => jsTrim (textContent t)
  | none =>
    match queryFirst ["h1"] root with
    | some h => jsTrim (textContent h)
    | none => ""

def headingTags : List String := ["h1", "h2", "h3", "h4", "h5", "h6"]

def isHeading (n : Node) : Bool :=
  tagIn headingTags n

/-- Value of `parseInt(header.tagName.substring(1))` for the six heading tags. -/
def levelOf (n : Node) : Nat :=
  match n.tag with
  | "h1" => 1 | "h2" => 2 | "h3" => 3 | "h4" => 4 | "h5" => 5 | "h6" => 6
  | _ => 0

structure Section where
  level : Nat
  title : String
  content : String
  textContent : String
deriving Repr, DecidableEq

/-- Section record built from a heading and its gathered sibling run
(`content.join("")` and the newline-joined per-fragment text). -/
def mkSection (hd : Node) (run : List Node) : Section :=
  { level := levelOf hd
  , title := jsTrim (textContent hd)
  , content := strJoin (run.map outerHTML)
  , textContent := jsTrim (strIntercalate "\n" (run.map (fun n => jsTrim (textContent n)))) }

/-- The `while (nextElement)` walk of `extractSections`: element siblings
after the heading, stopping at (excluding) the first sibling heading of
level ≤ the given one; text siblings are skipped by
`nextElementSibling`. -/
def sectionRun (level : Nat) : List Node → List Node
  | [] => []
  | c :: rest =>
    if c.isElement then
      if isHeading c ∧ levelOf c ≤ level then []
      else c :: sectionRun level rest
    else sectionRun level rest

mutual
/-- Sections contributed by headings inside one node (document order:
`querySelectorAll` preorder). -/
def sectionsFromNode : Node → List Section
  | .text _ => []
  | .element _ _ ch => sectionsFromList ch

def sectionsFromList : List Node → List Section
  | [] => []
  | c :: rest =>
    (if isHeading c then [mkSection c (sectionRun (levelOf c) rest)] else [])
      ++ sectionsFromNode c ++ sectionsFromList rest
end

/-- Embeds `ConfluenceParser.extractSections`. -/
def extractSections (root : Node) : List Section :=
  sectionsFromNode root

structure Cell where
  text : String
  html : String
  /-- Field where `none` models the NaN produced by `parseInt` on a numberless string. -/
  colspan : Option Int
  rowspan : Option Int
deriving Repr, DecidableEq

structure Table where
  caption : String
  headers : List String
  rows : List (List Cell)
deriving Repr, DecidableEq

/-- One `td` cell: `getAttribute(..) ? parseInt(..) : 1` — an absent or
empty attribute (JS-falsy) defaults to 1, anything else goes through
`parseInt`. -/
def mkCell (td : Node) : Cell :=
  { text := jsTrim (textContent td)
  , html := jsTrim (innerHTML td)
  , colspan :=
      match td.getAttr "colspan" with
      | some s => if s = "" then some 1 else jsParseInt s
      | none => some 1
  , rowspan :=
      match td.getAttr "rowspan" with
      | some s => if s = "" then some 1 else jsParseInt s
      | none => some 1 }

/-- Embeds `ConfluenceParser.extractTables`. -/
def extractTables (root : Node) : List Table :=
  (queryAll ["table"] root).map (fun t =>
    { caption :=
        match queryFirst ["caption"] t with
        | some c => jsTrim (textContent c)
        | none => ""
    , headers := (queryAll ["th"] t).map (fun cell => jsTrim (textContent cell))
    , rows :=
        ((queryAll ["tr"] t).map (fun row => (queryAll ["td"] row).map mkCell)).filter
          (fun row => row.length > 0) })

/-- A list item; `nested` is the `nestedLists` field, `none` for null,
otherwise the (ordered, unordered) pair of recursively extracted list
groups (a group is its item list). -/
inductive LItem where
  | mk (text : String) (html : String)
      (nested : Option (List (List LItem) × List (List LItem)))
deriving Repr

def LItem.text : LItem → String
  | .mk t _ _ => t

def LItem.html : LItem → String
  | .mk _ h _ => h

def LItem.nested : LItem → Option (List (List LItem) × List (List LItem))
  | .mk _ _ n => n

/-- Embeds `ConfluenceParser.extractSpecificLists`: every `selector` descendant
becomes a group; each group maps its `li` descendants to items whose
nested lists are extracted recursively from the item's own subtree. -/
def extractSpecificLists (root : Node) (sel : String) : List (List LItem) :=
  (queryAll [sel] root).attach.map (fun list =>
    (queryAll ["li"] list.1).attach.map (fun li =>
      let no := extractSpecificLists li.1 "ol"
      let nu := extractSpecificLists li.1 "ul"
      LItem.mk (jsTrim (textContent li.1)) (jsTrim (innerHTML li.1))
        (if no.length > 0 ∨ nu.length > 0 then some (no, nu) else none)))
termination_by sizeOf root
decreasing_by
  · exact Nat.lt_trans (sizeOf_lt_of_mem_collect li.2) (sizeOf_lt_of_mem_collect list.2)
  · exact Nat.lt_trans (sizeOf_lt_of_mem_collect li.2) (sizeOf_lt_of_mem_collect list.2)

structure DocLists where
  ordered : List (List LItem)
  unordered : List (List LItem)
deriving Repr

/-- Embeds `ConfluenceParser.extractLists`. -/
def extractLists (root : Node) : DocLists :=
  { ordered := extractSpecificLists root "ol"
  , unordered := extractSpecificLists root "ul" }

structure CodeBlock where
  code : String
  language : String
  html : String
deriving Repr, DecidableEq

def isWordChar (c : Char) : Bool :=
  ('a' ≤ c ∧ c ≤ 'z') || ('A' ≤ c ∧ c ≤ 'Z') || ('0' ≤ c ∧ c ≤ '9') || c = '_'

/-- Embeds `classes.match(/language-(\w+)/)`: first position where the literal
"language-" is followed by at least one word character; returns the
captured word-character run. -/
def langMatch : List Char → Option String
  | [] => none
  | c :: rest =>
    let here := c :: rest
    match
      (if "language-".data.isPrefixOf here then
        let tail := here.drop 9
        let run := tail.takeWhile isWordChar
        if run.isEmpty then none else some (⟨run⟩ : String)
      else none) with
    | some r => some r
    | none => langMatch rest

/-- Embeds `ConfluenceParser.extractCodeBlocks`. -/
def extractCodeBlocks (root : Node) : List CodeBlock :=
  (queryAll ["pre", "code"] root).map (fun cb =>
    let classes := (cb.getAttr "class").getD ""
    let language :=
      match langMatch classes.data with
      | some lang => lang
      | none =>
        if jsIncludes classes "java" then "java"
        else if jsIncludes classes "js" then "javascript"
        else if jsIncludes classes "py" then "python"
        else if jsIncludes classes "xml" || jsIncludes classes "html" then "xml"
        else if jsIncludes classes "css" then "css"
        else if jsIncludes classes "sql" then "sql"
        else "unknown"
    { code := jsTrim (textContent cb), language := language, html := outerHTML cb })

structure Link where
  href : String
  text : String
  title : String
  isInternal : Bool
  isAttachment : Bool
deriving Repr, DecidableEq

/-- Embeds `ConfluenceParser.extractLinks`. -/
def extractLinks (root : Node) : List Link :=
  (queryAll ["a"] root).map (fun ln =>
    let href := (ln.getAttr "href").getD ""
    { href := href
    , text := jsTrim (textContent ln)
    , title := (ln.getAttr "title").getD ""
    , isInternal := jsIncludes href "/wiki/" || jsStartsWith href "/"
    , isAttachment := jsIncludes href "/download/attachments/" })

structure Image where
  src : String
  alt : String
  title : String
  width : Option String
  height : Option String
  isAttachment : Bool
deriving Repr, DecidableEq

/-- Embeds `getAttribute(..) || null`: an empty attribute value is falsy and
collapses to null. -/
def jsOrNull (o : Option String) : Option String :=
  match o with
  | some s => if s = "" then none else some s
  | none => none

/-- Embeds `ConfluenceParser.extractImages`. -/
def extractImages (root : Node) : List Image :=
  (queryAll ["img"] root).map (fun img =>
    { src := (img.getAttr "src").getD ""
    , alt := (img.getAttr "alt").getD ""
    , title := (img.getAttr "title").getD ""
    , width := jsOrNull (img.getAttr "width")
    , height := jsOrNull (img.getAttr "height")
    , isAttachment := jsIncludes ((img.getAttr "src").getD "") "/download/attachments/" })

structure MacroNode where
  name : String
  parameters : List (String × String)
  html : String
  content : String
deriving Repr, DecidableEq

/-- Selector `[class*="macro"], [data-macro-name], [ac\:name]`. -/
def isMacroMarked (n : Node) : Bool :=
  (match n.getAttr "class" with
   | some c => jsIncludes c "macro"
   | none => false)
  || n.hasAttr "data-macro-name" || n.hasAttr "ac:name"

/-- Embeds `ConfluenceParser.extractMacros`. -/
def extractMacros (root : Node) : List MacroNode :=
  (collect isMacroMarked root).map (fun node =>
    let params :=
      (collect (fun pn => pn.hasAttr "ac:name" || pn.hasAttr "ac:parameter") node).foldl
        (fun ps pn =>
          match jsOrOpt (pn.getAttr "ac:name") (pn.getAttr "ac:parameter") with
          | some pname => if pname ≠ "" then upsert ps pname (jsTrim (textContent pn)) else ps
          | none => ps) []
    { name := jsOrStr (node.getAttr "data-macro-name") (jsOrStr (node.getAttr "ac:name") "unknown")
    , parameters := params
    , html := outerHTML node
    , content := jsTrim (textContent node) })

structure ParsedDocument where
  metadata : List (String × String)
  title : String
  sections : List Section
  tables : List Table
  lists : DocLists
  codeBlocks : List CodeBlock
  links : List Link
  images : List Image
  macros : List MacroNode
deriving Repr

/-- Result of `ConfluenceParser.parseContent`: the catch branch of the
source returns `{error: message, htmlContent}`; it is represented by the
second constructor, carrying the message and the original markup. -/
inductive ParseResult where
  | ok (doc : ParsedDocument)
  | err (message : String) (htmlContent : Node)
deriving Repr

/-- Embeds `ConfluenceParser.parseContent`.  Every embedded sub-extraction is a
total function, so the catch branch is unreachable in the embedding. -/
def parseContent (root : Node) : ParseResult :=
  ParseResult.ok
    { metadata := extractMetadata root
    , title := extractTitle root
    , sections := extractSections root
    , tables := extractTables root
    , lists := extractLists root
    , codeBlocks := extractCodeBlocks root
    , links := extractLinks root
    , images := extractImages root
    , macros := extractMacros root }

/-! ## Chunker (src/index.ts: extractVectorContent, processTable)

The metadata record: `pageMetadata.id`, `.title`, `.space.key`,
`.version.when` and `.version.by.displayName` are the fields the source
reads; they are flattened into one structure. -/

structure PageMetadata where
  id : String
  title : String
  spaceKey : String
  versionWhen : String
  versionAuthor : String
deriving Repr, DecidableEq

/-- Constant `CONFLUENCE_HOST`: environment-driven configuration, modelled by its
source default. -/
def CONFLUENCE_HOST : String := "https://your-domain.atlassian.net"

inductive VType where
  | section
  | listItem
  | metadata
deriving Repr, DecidableEq

structure ChunkMetadata where
  url : String
  lastUpdated : String
  author : String
  /-- The optional `section` field of the source; `none` models absence. -/
  sectionName : Option String
deriving Repr, DecidableEq

structure VectorizedContent where
  id : String
  title : String
  pageId : String
  spaceKey : String
  content : String
  type : VType
  metadata : ChunkMetadata
deriving Repr, DecidableEq

/-- The `baseMetadata` object built at the top of `extractVectorContent`. -/
def baseMetadata (pm : PageMetadata) : ChunkMetadata :=
  { url := CONFLUENCE_HOST ++ "/wiki/spaces/" ++ pm.spaceKey ++ "/pages/" ++ pm.id
  , lastUpdated := pm.versionWhen
  , author := pm.versionAuthor
  , sectionName := none }

/-- Embeds `processTable` (its internal try/catch degrades to "" only on a
throw, which cannot happen in the total embedding). -/
def processTable (t : Node) : String :=
  let headers := (queryAll ["th"] t).map (fun cell => jsTrim (textContent cell))
  let rows :=
    ((queryAll ["tr"] t).map (fun row => (queryAll ["td"] row).map (fun cell => jsTrim (textContent cell)))).filter
      (fun row => row.length > 0)
  (if headers.length > 0 then "Table Headers: " ++ strIntercalate " | " headers ++ "\n" else "")
    ++ rows.foldl (fun acc row => acc ++ "Row: " ++ strIntercalate " | " row ++ "\n") ""

/-- Rendering of a non-header element in the chunker loop: tables via
`processTable`, lists as bullet lines over all `li` descendants, anything
else plain trimmed text. -/
def renderText (el : Node) : String :=
  if el.tag = "table" then processTable el
  else if el.tag = "ul" ∨ el.tag = "ol" then
    strIntercalate "\n" ((queryAll ["li"] el).map (fun li => "• " ++ jsTrim (textContent li)))
  else jsTrim (textContent el)

/-- Embeds `element.querySelector('h1, h2, h3, h4, h5, h6')`. -/
def headerOf (el : Node) : Option Node :=
  queryFirst headingTags el

/-- The accumulator `currentChunk`. -/
structure Accum where
  content : String
  sectionLabel : String
deriving Repr, DecidableEq

/-- The loop state: chunks pushed so far plus the accumulator. -/
structure ChunkState where
  vectors : List VectorizedContent
  current : Accum
deriving Repr, DecidableEq

/-- Id given to the k-th emitted section chunk. -/
def chunkId (pm : PageMetadata) (k : Nat) : String :=
  pm.id ++ "-chunk-" ++ natToString k

/-- A `section`-typed chunk as pushed by the source (`idx` is
`vectors.length` at push time). -/
def sectionChunk (pm : PageMetadata) (idx : Nat) (content : String) (sect : String) :
    VectorizedContent :=
  { id := chunkId pm idx
  , title := pm.title
  , pageId := pm.id
  , spaceKey := pm.spaceKey
  , content := content
  , type := VType.section
  , metadata := { baseMetadata pm with sectionName := some sect } }

/-- Embeds `currentChunk.content.split('\n\n').slice(-1)[0]` with the
`lastParagraph || ''` fallback. -/
def lastParagraph (content : String) : String :=
  match (jsSplitBlank content).getLast? with
  | some p => p
  | none => ""

/-- One iteration of the `contentSections.forEach` body. -/
def chunkStep (pm : PageMetadata) (st : ChunkState) (el : Node) : ChunkState :=
  match headerOf el with
  | some hd =>
    let flushed :=
      if jsTrim st.current.content ≠ "" then
        st.vectors ++ [sectionChunk pm st.vectors.length (jsTrim st.current.content) st.current.sectionLabel]
      else st.vectors
    let ht := jsTrim (textContent hd)
    { vectors := flushed, current := { content := ht, sectionLabel := ht } }
  | none =>
    let txt := renderText el
    let newContent :=
      if txt ≠ "" then st.current.content ++ "\n\n" ++ txt else st.current.content
    if newContent.length > 1000 then
      { vectors := st.vectors ++ [sectionChunk pm st.vectors.length (jsTrim newContent) st.current.sectionLabel]
      , current := { content := lastParagraph newContent, sectionLabel := st.current.sectionLabel } }
    else
      { vectors := st.vectors, current := { content := newContent, sectionLabel := st.current.sectionLabel } }

/-! JSON.stringify(·, null, 2) for the metadata summary object. -/

def hexDigitChar (n : Nat) : Char :=
  if n < 10 then digitChar n
  else if n = 10 then 'a' else if n = 11 then 'b' else if n = 12 then 'c'
  else if n = 13 then 'd' else if n = 14 then 'e' else 'f'

def jsonEscapeChar (c : Char) : String :=
  if c = '"' then "\\\""
  else if c = '\\' then "\\\\"
  else if c = '\n' then "\\n"
  else if c = '\r' then "\\r"
  else if c = '\t' then "\\t"
  else if c = '\x08' then "\\b"
  else if c = '\x0c' then "\\f"
  else if c.toNat < 32 then "\\u00" ++ ⟨[hexDigitChar (c.toNat / 16), hexDigitChar (c.toNat % 16)]⟩
  else String.singleton c

def jsonQuote (s : String) : String :=
  "\"" ++ strJoin (s.data.map jsonEscapeChar) ++ "\""

/-- JSON value for one entry of the `sections` array (`undefined` cannot
occur there in practice; it would serialize as null inside an array). -/
def jsonOfOptString (o : Option String) : String :=
  match o with
  | some s => jsonQuote s
  | none => "null"

/-- Embeds `arr.filter((s, i, arr) => arr.indexOf(s) === i)`: first occurrences
kept, in order. -/
def dedupFirst : List (Option String) → List (Option String)
  | [] => []
  | x :: rest => x :: (dedupFirst rest).filter (fun y => y ≠ x)

/-- A string array under JSON.stringify(·, null, 2) at nesting depth 1. -/
def jsonArray2 (entries : List String) : String :=
  match entries with
  | [] => "[]"
  | _ => "[\n    " ++ strIntercalate ",\n    " entries ++ "\n  ]"

/-- The serialized summary placed in the metadata chunk's `content`. -/
def metadataContent (pm : PageMetadata) (vs : List VectorizedContent) : String :=
  strJoin
    [ "\x7b\n  \"title\": ", jsonQuote pm.title
    , ",\n  \"spaceKey\": ", jsonQuote pm.spaceKey
    , ",\n  \"sections\": ", jsonArray2 ((dedupFirst (vs.map (fun v => v.metadata.sectionName))).map jsonOfOptString)
    , ",\n  \"totalChunks\": ", natToString vs.length
    , ",\n  \"lastUpdated\": ", jsonQuote pm.versionWhen
    , ",\n  \"author\": ", jsonQuote pm.versionAuthor
    , "\n\x7d" ]

/-- The single metadata chunk appended after the loop. -/
def metadataChunk (pm : PageMetadata) (vs : List VectorizedContent) : VectorizedContent :=
  { id := pm.id ++ "-metadata"
  , title := pm.title
  , pageId := pm.id
  , spaceKey := pm.spaceKey
  , content := metadataContent pm vs
  , type := VType.metadata
  , metadata := baseMetadata pm }

/-- Embeds `root.querySelector('body') || root`. -/
def mainContentOf (root : Node) : Node :=
  match queryFirst ["body"] root with
  | some b => b
  | none => root

/-- Embeds `mainContent.querySelectorAll('div, p, table, ul, ol')`. -/
def contentSectionsOf (root : Node) : List Node :=
  queryAll ["div", "p", "table", "ul", "ol"] (mainContentOf root)

/-- The initial `currentChunk` with no chunks pushed yet. -/
def initialChunkState : ChunkState :=
  { vectors := [], current := { content := "", sectionLabel := "Main Content" } }

/-- State after the `contentSections.forEach` loop. -/
def loopState (pm : PageMetadata) (root : Node) : ChunkState :=
  (contentSectionsOf root).foldl (chunkStep pm) initialChunkState

/-- Chunks present after the loop plus the trailing
"don't forget the last chunk" flush. -/
def preMetadataVectors (pm : PageMetadata) (root : Node) : List VectorizedContent :=
  let st := loopState pm root
  if jsTrim st.current.content ≠ "" then
    st.vectors ++ [sectionChunk pm st.vectors.length (jsTrim st.current.content) st.current.sectionLabel]
  else st.vectors

/-- Embeds `extractVectorContent`: the try body (the catch returning [] is
unreachable in the total embedding). -/
def extractVectorContent (pm : PageMetadata) (root : Node) : List VectorizedContent :=
  preMetadataVectors pm root ++ [metadataChunk pm (preMetadataVectors pm root)]

/-! ## Chunk id and type invariants -/

/-- The loop invariant: the chunks pushed so far are `section`-typed and
carry consecutive ids from 0, in emission order. -/
def SectionIds (pm : PageMetadata) (vs : List VectorizedContent) : Prop :=
  vs.map (fun v => (v.type, v.id)) =
    (List.range vs.length).map (fun k => (VType.section, chunkId pm k))

theorem sectionIds_nil (pm : PageMetadata) : SectionIds pm [] := rfl

theorem sectionIds_push {pm : PageMetadata} {vs : List VectorizedContent}
    (h : SectionIds pm vs) (content sect : String) :
    SectionIds pm (vs ++ [sectionChunk pm vs.length content sect]) := by
  unfold SectionIds at h ⊢
  rw [List.map_append, List.length_append, List.length_singleton, List.range_succ,
    List.map_append, h]
  rfl

theorem chunkStep_sectionIds {pm : PageMetadata} {st : ChunkState} (el : Node)
    (h : SectionIds pm st.vectors) : SectionIds pm (chunkStep pm st el).vectors := by
  unfold chunkStep
  cases headerOf el with
  | some hd =>
    simp only
    by_cases hne : jsTrim st.current.content ≠ ""
    · rw [if_pos hne]
      exact sectionIds_push h _ _
    · rw [if_neg hne]
      exact h
  | none =>
    simp only
    by_cases hlen :
        (if renderText el ≠ "" then st.current.content ++ "\n\n" ++ renderText el
          else st.current.content).length > 1000
    · rw [if_pos hlen]
      exact sectionIds_push h _ _
    · rw [if_neg hlen]
      exact h

theorem foldl_chunkStep_sectionIds {pm : PageMetadata} :
    ∀ (els : List Node) (st : ChunkState), SectionIds pm st.vectors →
      SectionIds pm (els.foldl (chunkStep pm) st).vectors := by
  intro els
  induction els with
  | nil => intro st h; exact h
  | cons el rest ih =>
    intro st h
    exact ih _ (chunkStep_sectionIds el h)

theorem preMetadataVectors_sectionIds (pm : PageMetadata) (root : Node) :
    SectionIds pm (preMetadataVectors pm root) := by
  unfold preMetadataVectors
  have hloop : SectionIds pm (loopState pm root).vectors :=
    foldl_chunkStep_sectionIds _ _ (sectionIds_nil pm)
  by_cases hne : jsTrim (loopState pm root).current.content ≠ ""
  · rw [if_pos hne]
    exact sectionIds_push hloop _ _
  · rw [if_neg hne]
    exact hloop

theorem type_of_mem_sectionIds {pm : PageMetadata} {vs : List VectorizedContent}
    (h : SectionIds pm vs) {v : VectorizedContent} (hv : v ∈ vs) :
    v.type = VType.section := by
  have hmem : (v.type, v.id) ∈ vs.map (fun v => (v.type, v.id)) :=
    List.mem_map_of_mem _ hv
  rw [h] at hmem
  obtain ⟨k, _, hk⟩ := List.mem_map.1 hmem
  exact (Prod.mk.injEq _ _ _ _ ▸ hk.symm).1

/-! ## String id disjointness -/

theorem string_append_left_cancel {a b c : String} (h : a ++ b = a ++ c) : b = c := by
  have hd : a.data ++ b.data = a.data ++ c.data := by
    rw [← String.data_append, ← String.data_append, h]
  exact String.ext (List.append_cancel_left hd)

theorem chunkId_inj {pm : PageMetadata} {a b : Nat} (h : chunkId pm a = chunkId pm b) :
    a = b := by
  unfold chunkId at h
  exact natToString_inj (string_append_left_cancel h)

theorem chunkId_ne_metadataId (pm : PageMetadata) (k : Nat) :
    chunkId pm k ≠ pm.id ++ "-metadata" := by
  intro h
  unfold chunkId at h
  rw [String.append_assoc] at h
  have h2 : "-chunk-" ++ natToString k = "-metadata" := string_append_left_cancel h
  have hd : ("-chunk-" ++ natToString k).data = "-metadata".data := congrArg String.data h2
  rw [String.data_append] at hd
  have hck : "-chunk-".data = ['-', 'c', 'h', 'u', 'n', 'k', '-'] := rfl
  have hmd : "-metadata".data = ['-', 'm', 'e', 't', 'a', 'd', 'a', 't', 'a'] := rfl
  rw [hck, hmd] at hd
  simp at hd

/-! ## Claim theorems: chunker -/

/-- An empty document: `parse("")` yields a root with no children. -/
def emptyRoot : Node := Node.element "" [] []

/-- C1.  For every markup tree and metadata record the chunker's result
ends with a `metadata`-typed chunk, contains exactly one such chunk, and
on the empty document the result has length exactly 1.  The chunker is a
total function of the embedding, so it never raises; its internal-failure
(catch) path, which the source has returning [], is unreachable here. -/
theorem claim_C1 (pm : PageMetadata) (root : Node) :
    ((extractVectorContent pm root).getLast?).map VectorizedContent.type = some VType.metadata
      ∧ (extractVectorContent pm root).countP (fun v => v.type == VType.metadata) = 1
      ∧ (extractVectorContent pm emptyRoot).length = 1 := by
  refine ⟨?_, ?_, ?_⟩
  · unfold extractVectorContent
    rw [List.getLast?_concat]
    rfl
  · unfold extractVectorContent
    rw [List.countP_append]
    have hzero : (preMetadataVectors pm root).countP (fun v => v.type == VType.metadata) = 0 := by
      rw [List.countP_eq_zero]
      intro v hv
      have := type_of_mem_sectionIds (preMetadataVectors_sectionIds pm root) hv
      simp [this]
    rw [hzero]
    rfl
  · rfl

/-- C2.  The structural parser never raises: for every markup tree it
returns either a full ParsedDocument or the degenerate
`{error, htmlContent}` shape carrying the original markup.  In the total
embedding the first disjunct always holds. -/
theorem claim_C2 (root : Node) :
    (∃ d, parseContent root = ParseResult.ok d)
      ∨ ∃ msg, parseContent root = ParseResult.err msg root :=
  Or.inl ⟨_, rfl⟩

/-- C9.  The structural parser is deterministic: two parses of the
identical markup yield structurally equal documents (the embedding is a
pure function, so equal inputs give equal outputs). -/
theorem claim_C9 (a b : Node) (h : a = b) : parseContent a = parseContent b := by
  rw [h]

/-- Witness for C9 at a concrete document. -/
theorem claim_C9_witness : parseContent emptyRoot = parseContent emptyRoot :=
  claim_C9 emptyRoot emptyRoot rfl

/-- C4.  All chunk ids in a result are distinct; the non-final chunks are
exactly the `section`-typed ones with ids "<id>-chunk-k" for k = 0, 1, ...
in emission order, and the final chunk is the single metadata chunk with
id "<id>-metadata". -/
theorem claim_C4 (pm : PageMetadata) (root : Node) :
    (extractVectorContent pm root).map (fun v => (v.type, v.id)) =
        ((List.range ((extractVectorContent pm root).length - 1)).map
          (fun k => (VType.section, chunkId pm k)))
          ++ [(VType.metadata, pm.id ++ "-metadata")]
      ∧ ((extractVectorContent pm root).map (fun v => v.id)).Nodup := by
  have hpre := preMetadataVectors_sectionIds pm root
  have hlen : (extractVectorContent pm root).length - 1 = (preMetadataVectors pm root).length := by
    unfold extractVectorContent
    rw [List.length_append]
    rfl
  constructor
  · rw [hlen]
    unfold extractVectorContent
    rw [List.map_append, hpre]
    rfl
  · have hids : (extractVectorContent pm root).map (fun v => v.id) =
        ((List.range ((preMetadataVectors pm root).length)).map (chunkId pm))
          ++ [pm.id ++ "-metadata"] := by
      unfold extractVectorContent
      rw [List.map_append]
      have hm : (preMetadataVectors pm root).map (fun v => v.id) =
          (List.range ((preMetadataVectors pm root).length)).map (chunkId pm) := by
        have := congrArg (List.map Prod.snd) hpre
        rw [List.map_map, List.map_map] at this
        exact this
      rw [hm]
      rfl
    rw [hids]
    rw [List.nodup_append]
    refine ⟨?_, List.nodup_singleton _, ?_⟩
    · exact List.Nodup.map (fun a b => chunkId_inj) (List.nodup_range _)
    · intro x hx
      obtain ⟨k, _, hk⟩ := List.mem_map.1 hx
      subst hk
      simp only [List.mem_singleton]
      exact chunkId_ne_metadataId pm k

/-! ## Claim C3: section boundaries -/

/-- Spec-side reading of the sibling walk: the run of following sibling
elements taken while they are not a heading of level ≤ the section's
level. -/
def specRun (level : Nat) (rest : List Node) : List Node :=
  (rest.filter Node.isElement).takeWhile (fun e => !(isHeading e && decide (levelOf e ≤ level)))

mutual
/-- Every heading in preorder (document order) paired with its list of
following siblings. -/
def hcNode : Node → List (Node × List Node)
  | .text _ => []
  | .element _ _ ch => hcList ch

def hcList : List Node → List (Node × List Node)
  | [] => []
  | c :: rest => (if isHeading c then [(c, rest)] else []) ++ hcNode c ++ hcList rest
end

/-- Section built from one heading context, spec-side. -/
def secOfCtx (ctx : Node × List Node) : Section :=
  mkSection ctx.1 (specRun (levelOf ctx.1) ctx.2)

/-- The spec's description of `extractSections`: one section per heading
in document order, whose body is the `specRun` of its following
siblings. -/
def sectionsSpec (root : Node) : List Section :=
  (hcNode root).map secOfCtx

theorem sectionRun_eq_specRun (level : Nat) :
    ∀ l : List Node, sectionRun level l = specRun level l := by
  intro l
  induction l with
  | nil => rfl
  | cons c rest ih =>
    simp only [sectionRun, specRun, List.filter_cons] at ih ⊢
    by_cases he : c.isElement
    · simp only [he, if_true, List.takeWhile_cons]
      by_cases h1 : isHeading c
      · by_cases h2 : levelOf c ≤ level
        · simp [h1, h2]
        · simp [h1, h2, ih]
      · simp [h1, ih]
    · have hf : c.isElement = false := by simpa using he
      simp [hf, ih]

mutual
theorem sectionsFromNode_spec : ∀ n : Node, sectionsFromNode n = (hcNode n).map secOfCtx
  | .text s => rfl
  | .element t attrs ch => by
    rw [sectionsFromNode, hcNode]
    exact sectionsFromList_spec ch

theorem sectionsFromList_spec : ∀ l : List Node, sectionsFromList l = (hcList l).map secOfCtx
  | [] => rfl
  | c :: rest => by
    rw [sectionsFromList, hcList, List.map_append, List.map_append,
      sectionsFromNode_spec c, sectionsFromList_spec rest]
    congr 1
    congr 1
    by_cases hh : isHeading c
    · simp [hh, secOfCtx, mkSection, sectionRun_eq_specRun]
    · simp [hh]
end

/-- The §8 example document `<h1>A</h1><p>x</p><h2>B</h2><p>y</p>`. -/
def exSecC3 : Node :=
  Node.element "" []
    [ Node.element "h1" [] [Node.text "A"]
    , Node.element "p" [] [Node.text "x"]
    , Node.element "h2" [] [Node.text "B"]
    , Node.element "p" [] [Node.text "y"] ]

/-- C3.  Every heading of level L yields a section whose content and
textContent are built from exactly the run of following sibling elements
up to (but excluding) the first later sibling heading of level ≤ L (or
the end of the document), and sections appear in document order: the
code's sibling walk equals the spec-side takeWhile description over the
preorder heading contexts.  On the example document, the h1 run
continues through the h2 (level 2 is not ≤ 1) to the end. -/
theorem claim_C3 :
    (∀ root : Node, extractSections root = sectionsSpec root)
      ∧ extractSections exSecC3 =
          [ { level := 1, title := "A", content := "<p>x</p><h2>B</h2><p>y</p>"
            , textContent := "x\nB\ny" }
          , { level := 2, title := "B", content := "<p>y</p>", textContent := "y" } ] := by
  constructor
  · intro root
    exact sectionsFromNode_spec root
  · rfl

/-! ## Claim C5: size-threshold flushing with paragraph overlap -/

def pmC5 : PageMetadata :=
  { id := "doc", title := "T", spaceKey := "SP"
  , versionWhen := "2024-01-01", versionAuthor := "Author" }

/-- A 300-character paragraph. -/
def paraC5 : String := strJoin (List.replicate 30 "paragraph ")

/-- Eight such paragraphs: the accumulator crosses the 1000-character
threshold twice. -/
def exC5 : Node :=
  Node.element "" [] (List.replicate 8 (Node.element "p" [] [Node.text paraC5]))

/-- C5.  Whenever appending an element's rendered text pushes the
accumulator beyond 1000 characters, the loop body flushes the accumulator
as a `section` chunk (trimmed) and reseeds it with the last
blank-line-delimited paragraph of the flushed content, keeping the section
label unchanged.  On the eight-paragraph example the chunker emits more
than one section chunk, each non-final one bounded by 1302 characters
(1000 + one 300-character paragraph + the 2-character separator), near
but not exactly the 1000 threshold. -/
theorem claim_C5 :
    (∀ (pm : PageMetadata) (st : ChunkState) (el : Node),
      headerOf el = none → renderText el ≠ "" →
      (st.current.content ++ "\n\n" ++ renderText el).length > 1000 →
      chunkStep pm st el =
        { vectors := st.vectors ++
            [sectionChunk pm st.vectors.length
              (jsTrim (st.current.content ++ "\n\n" ++ renderText el)) st.current.sectionLabel]
        , current := { content := lastParagraph (st.current.content ++ "\n\n" ++ renderText el)
                     , sectionLabel := st.current.sectionLabel } })
      ∧ (extractVectorContent pmC5 exC5).countP (fun v => v.type == VType.section) ≥ 2
      ∧ ((extractVectorContent pmC5 exC5).filter
          (fun v => v.type == VType.section)).dropLast.all
            (fun v => decide (v.content.length ≤ 1302)) := by
  refine ⟨?_, by decide, by decide⟩
  intro pm st el h1 h2 h3
  simp only [chunkStep, h1]
  rw [if_pos h2, if_pos h3]

/-- Witness for C5: a concrete over-threshold accumulator state. -/
def stC5 : ChunkState :=
  { vectors := []
  , current := { content := strJoin (List.replicate 100 "aaaaaaaaaa")
               , sectionLabel := "Main Content" } }

def elC5 : Node := Node.element "p" [] [Node.text "hello"]

theorem claim_C5_witness :
    chunkStep pmC5 stC5 elC5 =
      { vectors := [sectionChunk pmC5 0
          (jsTrim (stC5.current.content ++ "\n\n" ++ renderText elC5)) "Main Content"]
      , current := { content := lastParagraph (stC5.current.content ++ "\n\n" ++ renderText elC5)
                   , sectionLabel := "Main Content" } } :=
  claim_C5.1 pmC5 stC5 elC5 rfl (by decide) (by decide)

/-! ## Claim C6: table rows and headers -/

/-- Claim-side reading (td children of each tr rather than td
descendants): modelled from the claim's words for comparison. -/
def tablesClaimC6 (root : Node) : List Table :=
  (queryAll ["table"] root).map (fun t =>
    { caption :=
        match queryFirst ["caption"] t with
        | some c => jsTrim (textContent c)
        | none => ""
    , headers := (queryAll ["th"] t).map (fun cell => jsTrim (textContent cell))
    , rows :=
        ((queryAll ["tr"] t).map (fun row => (row.children.filter (tagIn ["td"])).map mkCell)).filter
          (fun row => row.length > 0) })

/-- All descendants of a node, in document order. -/
def descendantsOf (root : Node) : List Node :=
  collect (fun _ => true) root

mutual
theorem collect_eq_filter : ∀ (p : Node → Bool) (n : Node),
    collect p n = (collect (fun _ => true) n).filter p
  | p, .text s => rfl
  | p, .element t attrs ch => by
    rw [collect, collect]
    exact collectList_eq_filter p ch

theorem collectList_eq_filter : ∀ (p : Node → Bool) (l : List Node),
    collectList p l = (collectList (fun _ => true) l).filter p
  | p, [] => rfl
  | p, c :: cs => by
    rw [collectList, collectList, List.filter_append, List.filter_append,
      ← collect_eq_filter p c, ← collectList_eq_filter p cs]
    congr 1
    by_cases hp : p c <;> simp [hp]
end

/-- Characterizes `querySelectorAll` as a filter over the document-order descendant
list. -/
theorem queryAll_eq_filter (tags : List String) (root : Node) :
    queryAll tags root = (descendantsOf root).filter (tagIn tags) :=
  collect_eq_filter _ root

/-- Spec-side table extraction, phrased over descendant lists: headers
are all th descendants in document order; rows are the td-descendant
lists of each tr descendant, keeping only rows with at least one cell. -/
def tablesSpecC6 (root : Node) : List Table :=
  ((descendantsOf root).filter (tagIn ["table"])).map (fun t =>
    { caption :=
        match ((descendantsOf t).filter (tagIn ["caption"])).head? with
        | some c => jsTrim (textContent c)
        | none => ""
    , headers := ((descendantsOf t).filter (tagIn ["th"])).map (fun cell => jsTrim (textContent cell))
    , rows :=
        (((descendantsOf t).filter (tagIn ["tr"])).map
          (fun row => ((descendantsOf row).filter (tagIn ["td"])).map mkCell)).filter
            (fun row => row.length > 0) })

/-- A table whose only tr holds its td inside an intervening div. -/
def cexC6 : Node :=
  Node.element "" []
    [Node.element "table" []
      [Node.element "tr" []
        [Node.element "div" [] [Node.element "td" [] [Node.text "x"]]]]]

/-- Counterexample to C6 as stated: the source keeps the row built from
td descendants (one cell) where the claim's td-children reading would
discard it (zero cells). -/
theorem claim_C6_counterexample :
    (extractTables cexC6).map (fun t => t.rows.length) = [1]
      ∧ (tablesClaimC6 cexC6).map (fun t => t.rows.length) = [0]
      ∧ extractTables cexC6 ≠ tablesClaimC6 cexC6 := by
  refine ⟨by decide, by decide, by decide⟩

/-- The spec's example table: one pure header row, two data rows. -/
def tableEx : Node :=
  Node.element "" []
    [Node.element "table" []
      [ Node.element "tr" [] [Node.element "th" [] [Node.text "Name"], Node.element "th" [] [Node.text "Age"]]
      , Node.element "tr" [] [Node.element "td" [] [Node.text "John"], Node.element "td" [] [Node.text "25"]]
      , Node.element "tr" [] [Node.element "td" [] [Node.text "Jane"], Node.element "td" [] [Node.text "30"]]]]

/-- C6 (amended).  Headers are the trimmed text of all th descendants in
document order; rows keep exactly the tr descendants having at least one
td descendant (not child), with cells being the td descendants in
document order; a table with one pure header row and two data rows yields
exactly 2 rows. -/
theorem claim_C6 :
    (∀ root : Node, extractTables root = tablesSpecC6 root)
      ∧ (extractTables tableEx).map (fun t => (t.headers, t.rows.length)) =
          [(["Name", "Age"], 2)] := by
  constructor
  · intro root
    simp only [extractTables, tablesSpecC6, queryFirst, queryAll_eq_filter]
  · decide

/-! ## Claim C7: list extraction -/

/-- One list item as built inside `extractSpecificLists` (let-free form of
the loop body, for reasoning about the recursion). -/
def listItemOf (li : Node) : LItem :=
  LItem.mk (jsTrim (textContent li)) (jsTrim (innerHTML li))
    (if (extractSpecificLists li "ol").length > 0 ∨ (extractSpecificLists li "ul").length > 0
     then some (extractSpecificLists li "ol", extractSpecificLists li "ul") else none)

/-- Attach-free unfolding of `extractSpecificLists`. -/
theorem extractSpecificLists_unfold (root : Node) (sel : String) :
    extractSpecificLists root sel =
      (queryAll [sel] root).map (fun list => (queryAll ["li"] list).map listItemOf) := by
  unfold extractSpecificLists
  have hinner : ∀ (i : {x // x ∈ queryAll [sel] root}),
      ((queryAll ["li"] i.1).attach.map (fun li =>
        LItem.mk (jsTrim (textContent li.1)) (jsTrim (innerHTML li.1))
          (if (extractSpecificLists li.1 "ol").length > 0
              ∨ (extractSpecificLists li.1 "ul").length > 0
           then some (extractSpecificLists li.1 "ol", extractSpecificLists li.1 "ul")
           else none)))
        = (queryAll ["li"] i.1).map listItemOf := by
    intro i
    exact List.attach_map_coe _ listItemOf
  refine Eq.trans ?_ (List.attach_map_coe _ _)
  exact congrArg (fun f => List.map f (queryAll [sel] root).attach) (funext hinner)

mutual
/-- Claim-side reading: only the top-level `sel` elements (those not
nested inside an outer matching list) form independent groups; modelled
from the claim's words. -/
def topLists (sel : String) : Node → List Node
  | .text _ => []
  | .element _ _ ch => topListsList sel ch

def topListsList (sel : String) : List Node → List Node
  | [] => []
  | c :: cs => (if tagIn [sel] c then [c] else topLists sel c) ++ topListsList sel cs
end

def liB : Node := Node.element "li" [] [Node.text "b"]
def ulIn : Node := Node.element "ul" [] [liB]
def liA : Node := Node.element "li" [] [Node.text "a", ulIn]
def ulOut : Node := Node.element "ul" [] [liA]

/-- Document `<ul><li>a<ul><li>b</li></ul></li></ul>`: one top-level ul with one
nested ul. -/
def cexC7 : Node := Node.element "" [] [ulOut]

theorem eslB_ol : extractSpecificLists liB "ol" = [] := by
  rw [extractSpecificLists_unfold]; rfl

theorem eslB_ul : extractSpecificLists liB "ul" = [] := by
  rw [extractSpecificLists_unfold]; rfl

theorem itemB_eq : listItemOf liB = LItem.mk "b" "b" none := by
  simp only [listItemOf, eslB_ol, eslB_ul]
  rfl

theorem eslA_ol : extractSpecificLists liA "ol" = [] := by
  rw [extractSpecificLists_unfold]; rfl

theorem eslA_ul : extractSpecificLists liA "ul" = [[LItem.mk "b" "b" none]] := by
  rw [extractSpecificLists_unfold]
  show [[listItemOf liB]] = _
  rw [itemB_eq]

theorem itemA_eq :
    listItemOf liA =
      LItem.mk "ab" "a<ul><li>b</li></ul>" (some ([], [[LItem.mk "b" "b" none]])) := by
  simp only [listItemOf, eslA_ol, eslA_ul]
  rfl

theorem eslTop :
    extractSpecificLists cexC7 "ul" =
      [ [ LItem.mk "ab" "a<ul><li>b</li></ul>" (some ([], [[LItem.mk "b" "b" none]]))
        , LItem.mk "b" "b" none ]
      , [LItem.mk "b" "b" none] ] := by
  rw [extractSpecificLists_unfold]
  show [[listItemOf liA, listItemOf liB], [listItemOf liB]] = _
  rw [itemA_eq, itemB_eq]

/-- Counterexample to C7 as stated: the document has exactly one
top-level ul, yet the extractor returns two unordered groups, because
`querySelectorAll` also collects the nested ul as its own group. -/
theorem claim_C7_counterexample :
    (topLists "ul" cexC7).length = 1
      ∧ (extractLists cexC7).unordered.length = 2 := by
  constructor
  · rfl
  · show (extractSpecificLists cexC7 "ul").length = 2
    rw [eslTop]
    rfl

/-- C7 (amended).  List extraction collects every ol/ul descendant —
nested lists included — as its own group (one group perselector match,
in two separate passes), so nested lists appear both inside their item's
`nestedLists` and again as groups of their own; `nestedLists` is `none`
only when both recursively extracted arrays are empty, and on the nested
example the li containing one nested ul gets `nestedLists.unordered` of
length 1 while the li with no nested list gets `none`. -/
theorem claim_C7 :
    (∀ (root : Node) (sel : String),
        (extractSpecificLists root sel).length = (queryAll [sel] root).length)
      ∧ (∀ (root : Node) (sel : String) (g : List LItem) (it : LItem),
          g ∈ extractSpecificLists root sel → it ∈ g → it.nested ≠ some ([], []))
      ∧ (extractLists cexC7).unordered.map
          (List.map (fun it => it.nested.map (fun pr => pr.2.length)))
          = [[some 1, none], [none]] := by
  refine ⟨?_, ?_, ?_⟩
  · intro root sel
    rw [extractSpecificLists_unfold, List.length_map]
  · intro root sel g it hg hit
    rw [extractSpecificLists_unfold] at hg
    obtain ⟨list, hlist, rfl⟩ := List.mem_map.1 hg
    obtain ⟨li, hli, rfl⟩ := List.mem_map.1 hit
    simp only [listItemOf, LItem.nested]
    by_cases hc : (extractSpecificLists li "ol").length > 0
        ∨ (extractSpecificLists li "ul").length > 0
    · rw [if_pos hc]
      intro heq
      have hpair := Option.some.inj heq
      have hol : extractSpecificLists li "ol" = [] := congrArg Prod.fst hpair
      have hul : extractSpecificLists li "ul" = [] := congrArg Prod.snd hpair
      rw [hol, hul] at hc
      simp at hc
    · rw [if_neg hc]
      intro h
      exact Option.noConfusion h
  · show (extractSpecificLists cexC7 "ul").map
        (List.map (fun it => it.nested.map (fun pr => pr.2.length))) = _
    rw [eslTop]
    rfl

/-- Witness for C7 at the concrete nested document. -/
theorem claim_C7_witness : (LItem.mk "b" "b" none).nested ≠ some ([], []) :=
  claim_C7.2.1 cexC7 "ul" [LItem.mk "b" "b" none] (LItem.mk "b" "b" none)
    (by rw [eslTop]; simp) (by simp)

/-! ## Claim C8: colspan/rowspan values -/

/-- A td carrying `colspan="0"`: present and non-empty, so it goes
through `parseInt`. -/
def cexC8 : Node :=
  Node.element "" []
    [Node.element "table" []
      [Node.element "tr" [] [Node.element "td" [("colspan", "0")] [Node.text "x"]]]]

def cellC8 : Cell := { text := "x", html := "x", colspan := some 0, rowspan := some 1 }

def tblC8 : Table := { caption := "", headers := [], rows := [[cellC8]] }

/-- Counterexample to C8 as stated: a `colspan="0"` attribute yields a
cell whose colspan is 0, not ≥ 1. -/
theorem claim_C8_counterexample :
    ¬ (∀ t ∈ extractTables cexC8, ∀ row ∈ t.rows, ∀ c ∈ row,
        (∃ k, c.colspan = some k ∧ 1 ≤ k) ∧ (∃ k, c.rowspan = some k ∧ 1 ≤ k)) := by
  intro h
  obtain ⟨⟨k, hk, hk1⟩, -⟩ := h tblC8 (by decide) [cellC8] (by decide) cellC8 (by decide)
  have h0 : (0 : Int) = k := Option.some.inj hk
  omega

/-- C8 (amended).  Every cell of every extracted table is `mkCell` of a
concrete td node (a td descendant of a tr descendant of a table
descendant of the input), and its colspan (resp. rowspan) is 1 when that
node's attribute is absent or empty (JS-falsy), and otherwise is exactly
`parseInt` of that node's attribute string — which can be 0, negative, or
NaN, so the ≥ 1 bound of the original claim holds only in the default
case. -/
theorem claim_C8 (root : Node) (t : Table) (row : List Cell) (c : Cell)
    (ht : t ∈ extractTables root) (hrow : row ∈ t.rows) (hc : c ∈ row) :
    ∃ tn ∈ queryAll ["table"] root, ∃ trn ∈ queryAll ["tr"] tn, ∃ tdn ∈ queryAll ["td"] trn,
      c = mkCell tdn
        ∧ ((tdn.getAttr "colspan" = none ∨ tdn.getAttr "colspan" = some "") →
            c.colspan = some 1)
        ∧ (∀ s, tdn.getAttr "colspan" = some s → s ≠ "" → c.colspan = jsParseInt s)
        ∧ ((tdn.getAttr "rowspan" = none ∨ tdn.getAttr "rowspan" = some "") →
            c.rowspan = some 1)
        ∧ (∀ s, tdn.getAttr "rowspan" = some s → s ≠ "" → c.rowspan = jsParseInt s) := by
  unfold extractTables at ht
  obtain ⟨tn, htn, rfl⟩ := List.mem_map.1 ht
  simp only at hrow
  obtain ⟨hrow2, -⟩ := List.mem_filter.1 hrow
  obtain ⟨trn, htrn, rfl⟩ := List.mem_map.1 hrow2
  obtain ⟨tdn, htdn, rfl⟩ := List.mem_map.1 hc
  refine ⟨tn, htn, trn, htrn, tdn, htdn, rfl, ?_, ?_, ?_, ?_⟩
  · rintro (h | h)
    · show (match tdn.getAttr "colspan" with
          | some v => if v = "" then some 1 else jsParseInt v
          | none => some 1) = some 1
      rw [h]
    · show (match tdn.getAttr "colspan" with
          | some v => if v = "" then some 1 else jsParseInt v
          | none => some 1) = some 1
      rw [h]
      rfl
  · intro s hs hne
    show (match tdn.getAttr "colspan" with
        | some v => if v = "" then some 1 else jsParseInt v
        | none => some 1) = jsParseInt s
    rw [hs]
    show (if s = "" then some 1 else jsParseInt s) = jsParseInt s
    rw [if_neg hne]
  · rintro (h | h)
    · show (match tdn.getAttr "rowspan" with
          | some v => if v = "" then some 1 else jsParseInt v
          | none => some 1) = some 1
      rw [h]
    · show (match tdn.getAttr "rowspan" with
          | some v => if v = "" then some 1 else jsParseInt v
          | none => some 1) = some 1
      rw [h]
      rfl
  · intro s hs hne
    show (match tdn.getAttr "rowspan" with
        | some v => if v = "" then some 1 else jsParseInt v
        | none => some 1) = jsParseInt s
    rw [hs]
    show (if s = "" then some 1 else jsParseInt s) = jsParseInt s
    rw [if_neg hne]

/-- Witness for C8 at the concrete colspan="0" table: the cell is tied to
its td node, whose colspan attribute is "0" and whose rowspan attribute
is absent. -/
theorem claim_C8_witness :
    ∃ tn ∈ queryAll ["table"] cexC8, ∃ trn ∈ queryAll ["tr"] tn,
      ∃ tdn ∈ queryAll ["td"] trn,
        cellC8 = mkCell tdn
          ∧ ((tdn.getAttr "colspan" = none ∨ tdn.getAttr "colspan" = some "") →
              cellC8.colspan = some 1)
          ∧ (∀ s, tdn.getAttr "colspan" = some s → s ≠ "" → cellC8.colspan = jsParseInt s)
          ∧ ((tdn.getAttr "rowspan" = none ∨ tdn.getAttr "rowspan" = some "") →
              cellC8.rowspan = some 1)
          ∧ (∀ s, tdn.getAttr "rowspan" = some s → s ≠ "" → cellC8.rowspan = jsParseInt s) :=
  claim_C8 cexC8 tblC8 [cellC8] cellC8 (by decide) (by decide) (by decide)

/-! ## Claim C10: meta tag extraction -/

/-- A meta element that qualifies for the map (both attributes present
and JS-truthy) and carries the given name. -/
def qualName (m : Node) (q : String) : Bool :=
  match m.getAttr "name", m.getAttr "content" with
  | some n, some c => decide (n ≠ "") && decide (c ≠ "") && decide (n = q)
  | _, _ => false

/-- Claim-side reading: every meta carrying both attributes contributes,
with the last one winning, regardless of empty values; modelled from the
claim's words. -/
def metadataClaimC10 (root : Node) : List (String × String) :=
  (queryAll ["meta"] root).foldl (fun md m =>
    match m.getAttr "name", m.getAttr "content" with
    | some n, some c => upsert md n c
    | _, _ => md) []

theorem lookup_upsert : ∀ (l : List (String × String)) (k v q : String),
    assocLookup (upsert l k v) q = if k = q then some v else assocLookup l q := by
  intro l
  induction l with
  | nil =>
    intro k v q
    rfl
  | cons kv' rest ih =>
    intro k v q
    obtain ⟨k', v'⟩ := kv'
    simp only [upsert]
    by_cases h1 : k' = k
    · rw [if_pos h1]
      subst h1
      simp only [assocLookup]
      by_cases h2 : k' = q
      · simp only [if_pos h2]
      · simp only [if_neg h2]
    · rw [if_neg h1]
      simp only [assocLookup]
      by_cases h2 : k' = q
      · subst h2
        have hk : ¬ k = k' := fun hh => h1 hh.symm
        simp [hk]
      · simp only [if_neg h2]
        exact ih k v q

/-- Lookup after a non-qualifying or differently-named meta is
unchanged. -/
theorem lookup_metaStep_of_not_qual {m : Node} {q : String} (hq : ¬ qualName m q)
    (md : List (String × String)) :
    assocLookup (metaStep md m) q = assocLookup md q := by
  unfold metaStep
  unfold qualName at hq
  cases hn : m.getAttr "name" with
  | none => rfl
  | some n =>
    cases hc : m.getAttr "content" with
    | none => rfl
    | some c =>
      rw [hn, hc] at hq
      have hq' : ¬ (decide (n ≠ "") && decide (c ≠ "") && decide (n = q)) = true := hq
      show assocLookup (if n ≠ "" ∧ c ≠ "" then upsert md n c else md) q = assocLookup md q
      by_cases hg : n ≠ "" ∧ c ≠ ""
      · rw [if_pos hg, lookup_upsert]
        have hnq : ¬ n = q := by
          intro hEq
          subst hEq
          exact hq' (by simp [hg.1, hg.2])
        rw [if_neg hnq]
      · rw [if_neg hg]

theorem lookup_foldl_metaStep : ∀ (ms : List Node) (md : List (String × String)) (q : String),
    assocLookup (ms.foldl metaStep md) q =
      match (ms.filter (fun m => qualName m q)).getLast? with
      | some m => some ((m.getAttr "content").getD "")
      | none => assocLookup md q := by
  intro ms
  induction ms with
  | nil => intro md q; rfl
  | cons m rest ih =>
    intro md q
    rw [List.foldl_cons, ih, List.filter_cons]
    by_cases hq : qualName m q
    · rw [if_pos hq]
      cases hfil : rest.filter (fun x => qualName x q) with
      | nil =>
        simp only [List.getLast?_nil, List.getLast?_singleton]
        unfold qualName at hq
        unfold metaStep
        cases hn : m.getAttr "name" with
        | none => rw [hn] at hq; exact absurd hq (by simp)
        | some n =>
          cases hc : m.getAttr "content" with
          | none => rw [hn, hc] at hq; exact absurd hq (by simp)
          | some c =>
            rw [hn, hc] at hq
            simp only [Bool.and_eq_true, decide_eq_true_eq] at hq
            show assocLookup (if n ≠ "" ∧ c ≠ "" then upsert md n c else md) q =
              some ((some c).getD "")
            rw [if_pos ⟨hq.1.1, hq.1.2⟩, lookup_upsert, if_pos hq.2]
            rfl
      | cons y ys =>
        rw [List.getLast?_cons_cons]
        cases hl : (y :: ys).getLast? with
        | some z => rfl
        | none => simp at hl
    · rw [if_neg hq]
      cases hfil : (rest.filter (fun x => qualName x q)).getLast? with
      | some y => rfl
      | none => exact lookup_metaStep_of_not_qual hq md

theorem mem_upsert {l : List (String × String)} {k v : String} {kv : String × String}
    (h : kv ∈ upsert l k v) : kv = (k, v) ∨ kv ∈ l := by
  induction l with
  | nil => simpa [upsert] using h
  | cons kv' rest ih =>
    obtain ⟨k', v'⟩ := kv'
    by_cases h1 : k' = k
    · subst h1
      simp only [upsert, if_pos rfl] at h
      rcases List.mem_cons.1 h with h2 | h2
      · exact Or.inl h2
      · exact Or.inr (List.mem_cons_of_mem _ h2)
    · simp only [upsert, if_neg h1] at h
      rcases List.mem_cons.1 h with h2 | h2
      · exact Or.inr (h2 ▸ List.mem_cons_self _ _)
      · rcases ih h2 with h3 | h3
        · exact Or.inl h3
        · exact Or.inr (List.mem_cons_of_mem _ h3)

theorem mem_foldl_metaStep : ∀ (ms : List Node) (md : List (String × String))
    (kv : String × String), kv ∈ ms.foldl metaStep md →
    kv ∈ md ∨ ∃ m ∈ ms, m.getAttr "name" = some kv.1 ∧ m.getAttr "content" = some kv.2
      ∧ kv.1 ≠ "" ∧ kv.2 ≠ "" := by
  intro ms
  induction ms with
  | nil => intro md kv h; exact Or.inl h
  | cons m rest ih =>
    intro md kv h
    rw [List.foldl_cons] at h
    rcases ih _ kv h with h1 | h2
    · unfold metaStep at h1
      cases hn : m.getAttr "name" with
      | none => rw [hn] at h1; exact Or.inl h1
      | some n =>
        cases hc : m.getAttr "content" with
        | none => rw [hn, hc] at h1; exact Or.inl h1
        | some c =>
          rw [hn, hc] at h1
          have h1' : kv ∈ (if n ≠ "" ∧ c ≠ "" then upsert md n c else md) := h1
          by_cases hg : n ≠ "" ∧ c ≠ ""
          · rw [if_pos hg] at h1'
            rcases mem_upsert h1' with h3 | h3
            · subst h3
              exact Or.inr ⟨m, List.mem_cons_self _ _, hn, hc, hg.1, hg.2⟩
            · exact Or.inl h3
          · rw [if_neg hg] at h1'
            exact Or.inl h1'
    · obtain ⟨m', hm', hrest⟩ := h2
      exact Or.inr ⟨m', List.mem_cons_of_mem _ hm', hrest⟩

/-- Document with `<meta name="k" content="a">` then `<meta name="k" content="">`. -/
def cexC10 : Node :=
  Node.element "" []
    [ Node.element "meta" [("name", "k"), ("content", "a")] []
    , Node.element "meta" [("name", "k"), ("content", "")] [] ]

/-- Counterexample to C10 as stated: the last meta carrying both
attributes has empty content, so the source skips it (JS truthiness) and
keeps the earlier value, where the claim's reading would store the empty
content of the last such element. -/
theorem claim_C10_counterexample :
    extractMetadata cexC10 = [("k", "a")]
      ∧ metadataClaimC10 cexC10 = [("k", "")]
      ∧ assocLookup (extractMetadata cexC10) "k" ≠ assocLookup (metadataClaimC10 cexC10) "k" := by
  refine ⟨by decide, by decide, by decide⟩

/-- C10 (amended).  A meta lacking either attribute — or carrying an
empty name or empty content, both JS-falsy — contributes no entry; the
value of a name is the content of the last meta element in document order
whose name equals it and whose name and content are both present and
non-empty, and every pair of the map arises from such an element. -/
theorem claim_C10 (root : Node) (q : String) :
    (assocLookup (extractMetadata root) q =
      match ((queryAll ["meta"] root).filter (fun m => qualName m q)).getLast? with
      | some m => some ((m.getAttr "content").getD "")
      | none => none)
      ∧ ∀ kv ∈ extractMetadata root,
          ∃ m ∈ queryAll ["meta"] root,
            m.getAttr "name" = some kv.1 ∧ m.getAttr "content" = some kv.2
              ∧ kv.1 ≠ "" ∧ kv.2 ≠ "" := by
  constructor
  · unfold extractMetadata
    rw [lookup_foldl_metaStep]
    cases ((queryAll ["meta"] root).filter (fun m => qualName m q)).getLast? with
    | some y => rfl
    | none => rfl
  · intro kv hkv
    unfold extractMetadata at hkv
    rcases mem_foldl_metaStep _ _ kv hkv with h | h
    · exact absurd h (List.not_mem_nil kv)
    · exact h

/-- Witness for C10 at the concrete two-meta document. -/
theorem claim_C10_witness :
    ∃ m ∈ queryAll ["meta"] cexC10,
      m.getAttr "name" = some "k" ∧ m.getAttr "content" = some "a"
        ∧ "k" ≠ "" ∧ "a" ≠ "" :=
  (claim_C10 cexC10 "k").2 ("k", "a") (by decide)
